import Mathlib

/-!
Verification of `update_package.py`, a deployment helper that builds Debian
packages in a container and copies / installs them on a fleet of machines.

The script is shallowly embedded: its pure string manipulations become Lean
functions on `String` / `List Char`, external processes (docker, scp, ssh)
become oracle functions packed into a `World` record, the observable commands
the script issues become an explicit `Event` trace, and fatal errors
(exceptions, `sys.exit`) become `Except` errors.  Filesystem paths are
modelled as lists of components (`[]` is the filesystem root `/`).
-/

/-- Model of `str.splitlines()` as used on the captured build output:
split on `\n`, `\r\n` and `\r`, with no trailing empty line for input
ending in a line break. -/
def splitlinesAux : List Char → List Char → List String
  | [], acc => if acc = [] then [] else [String.mk acc.reverse]
  | '\r' :: '\n' :: rest, acc => String.mk acc.reverse :: splitlinesAux rest []
  | '\r' :: rest, acc => String.mk acc.reverse :: splitlinesAux rest []
  | '\n' :: rest, acc => String.mk acc.reverse :: splitlinesAux rest []
  | c :: rest, acc => splitlinesAux rest (c :: acc)

/-- `proc.stdout.decode().splitlines()`. -/
def splitlines (s : String) : List String :=
  splitlinesAux s.data []

/-- `line.startswith(pre)`, computed on the character lists. -/
def strStartsWith (s pre : String) : Bool :=
  pre.data.isPrefixOf s.data

/-- `line[n:]`, computed on the character lists. -/
def strDrop (s : String) (n : Nat) : String :=
  String.mk (s.data.drop n)

/-- `s.split(sep)` for a one-character separator: Python semantics, so the
empty string splits to `[""]` and separators at the ends produce empty
fields. -/
def splitOnCharAux (sep : Char) : List Char → List Char → List String
  | [], acc => [String.mk acc.reverse]
  | c :: rest, acc =>
      if c = sep then String.mk acc.reverse :: splitOnCharAux sep rest []
      else splitOnCharAux sep rest (c :: acc)

/-- `s.split(sep)` for a one-character separator. -/
def splitOnChar (sep : Char) (s : String) : List String :=
  splitOnCharAux sep s.data []

/-- `get_package_from_stdout`: for each line of the captured output that
starts with `PKG_FILE=`, yield the remainder of the line
(`line[len("PKG_FILE="):]`). -/
def get_package_from_stdout (stdout : String) : List String :=
  (splitlines stdout).filterMap fun line =>
    if strStartsWith line "PKG_FILE=" then some (strDrop line ("PKG_FILE=".data.length)) else none

/-- `pkg.name.split("_", 1)[0]`: the part of the filename before the first
underscore (the whole filename when it contains none). -/
def deriveName (name : String) : String :=
  String.mk (name.data.takeWhile fun c => c != '_')

/-- The static table of named machine groups (`MACHINE_SETS`). -/
def MACHINE_SETS : List (String × List String) :=
  [("single", ["bsbt1"])]

/-- `MACHINE_SETS.get(key, default)` without the default: `none` when the
key is not in the table. -/
def lookupMachineSet (key : String) : Option (List String) :=
  (MACHINE_SETS.find? fun kv => kv.1 == key).map (·.2)

/-- Machine resolution in `Configuration.from_args`:
`[args.prefix + machine for machine in MACHINE_SETS.get(args.machines, args.machines.split(","))]`. -/
def resolveMachines (machinesArg pfx : String) : List String :=
  ((lookupMachineSet machinesArg).getD (splitOnChar ',' machinesArg)).map fun m => pfx ++ m

/-- `BaseConfiguration.search_repository_root`: walk up from `current`
until a directory containing `.git` is found; raise when the filesystem
root (its own parent) is reached without finding one.  Directories are
lists of path components and `hasGit d` says whether `d / ".git"` exists. -/
def search_repository_root (hasGit : List String → Bool) (current : List String) :
    Except String (List String) :=
  if hasGit current then Except.ok current
  else if current = [] then Except.error "Could not find repository root!"
  else search_repository_root hasGit current.dropLast
termination_by current.length
decreasing_by
  rename_i h2
  have : current.length ≠ 0 := fun hn => h2 (List.eq_nil_of_length_eq_zero hn)
  simp [List.length_dropLast]
  omega

/-- The fields of the parsed `argparse.Namespace` that the configuration
constructors read.  `machines`, `ssh_config` and `docker_image` are `none`
when neither the option nor its environment variable was given;
`repository_root` is the already-resolved component list when `--repository-root`
was passed. -/
structure Args where
  folders : List String
  machines : Option String
  ssh_config : Option String
  docker_image : Option String
  pfx : String
  repository_root : Option (List String)
  skip_package_build : Bool
  skip_install_check : Bool
deriving DecidableEq

/-- How configuration resolution can terminate the process early:
`exit n` is `sys.exit(n)`, `raised msg` is an uncaught `Exception`. -/
inductive ConfigError where
  | exit (code : Nat)
  | raised (msg : String)
deriving DecidableEq

/-- `BaseConfiguration`. -/
structure BaseConfiguration where
  repository_root : List String
  docker_image : String
deriving DecidableEq

/-- `BaseConfiguration.from_args`: resolve the repository root (explicit
argument, else upward search from the current working directory `cwd`),
then require a docker image. -/
def BaseConfiguration.from_args (hasGit : List String → Bool) (cwd : List String)
    (args : Args) : Except ConfigError BaseConfiguration :=
  match (match args.repository_root with
         | some r => Except.ok r
         | none => (search_repository_root hasGit cwd).mapError ConfigError.raised) with
  | Except.error e => Except.error e
  | Except.ok repo_root =>
      match args.docker_image with
      | none => Except.error (ConfigError.exit 1)
      | some img => Except.ok ⟨repo_root, img⟩

/-- `Configuration`. -/
structure Configuration where
  base_config : BaseConfiguration
  machines : List String
  ssh_config : Option String
  folders : List String
  skip_build : Bool
  skip_check : Bool
deriving DecidableEq

/-- `Configuration.from_args`: build the base configuration, require a
machines value, and resolve it through the machine-set table with the
prefix applied. -/
def Configuration.from_args (hasGit : List String → Bool) (cwd : List String)
    (args : Args) : Except ConfigError Configuration :=
  match BaseConfiguration.from_args hasGit cwd args with
  | Except.error e => Except.error e
  | Except.ok base_config =>
      match args.machines with
      | none => Except.error (ConfigError.exit 1)
      | some ms =>
          Except.ok ⟨base_config, resolveMachines ms args.pfx, args.ssh_config,
                     args.folders, args.skip_package_build, args.skip_install_check⟩

/-- A `pathlib.Path`: a directory (component list) plus a final component,
so that `p.name` is the basename. -/
structure PurePath where
  dir : List String
  name : String
deriving DecidableEq

/-- `str(p)`. -/
def PurePath.toStr (p : PurePath) : String :=
  "/" ++ String.intercalate "/" (p.dir ++ [p.name])

/-- The external commands the script issues, in order:
`build d` is the `docker run` for folder `d`; `check m pkg` is the
`ssh m "dpkg-query --status pkg"`; `copy m src dest` is `scp src dest`;
`installCmd m cmd` is `ssh m cmd` for the batched `dpkg --install`. -/
inductive Event where
  | build (directory : String)
  | check (machine : String) (package : String)
  | copy (machine : String) (src : String) (dest : String)
  | installCmd (machine : String) (cmd : String)
deriving DecidableEq

/-- `true` exactly on `scp` events. -/
def Event.isCopy : Event → Bool
  | Event.copy .. => true
  | _ => false

/-- `true` exactly on batched-install `ssh` events. -/
def Event.isInstall : Event → Bool
  | Event.installCmd .. => true
  | _ => false

/-- The externally-determined outcomes the script observes:
`buildOut d` is the captured combined stdout/stderr of the container build
for folder `d` (`Except.error` when the container exits non-zero),
`query m pkg` is the exit status of `dpkg-query --status pkg` on machine
`m`, and `globDebs d` lists the `*.deb` files found in directory `d` in
skip-build mode. -/
structure World where
  buildOut : String → Except String String
  query : String → String → Nat
  globDebs : List String → List String

/-- Fatal run-time failures: a non-zero container build (re-raised
`CalledProcessError`, carrying the captured output) or an unexpected
`dpkg-query` exit status (`check_returncode()`). -/
inductive RunError where
  | buildFailed (directory : String) (output : String)
  | queryFailed (machine : String) (package : String) (rc : Nat)
deriving DecidableEq

/-- `build_packages`: run the container for one folder; one `docker run`
always happens, and a non-zero exit is logged and re-raised. -/
def build_packages (w : World) (directory : String) :
    List Event × Except RunError String :=
  ([Event.build directory],
   match w.buildOut directory with
   | Except.error out => Except.error (RunError.buildFailed directory out)
   | Except.ok out => Except.ok out)

/-- The loop body of `build_packages_and_get_paths` over the remaining
folders: skip-build mode globs `*.deb` under the folder, otherwise the
folder is built and the announced filenames are joined to its absolute
path.  The first build failure stops the loop and propagates. -/
def collectFolders (w : World) (cfg : Configuration) :
    List String → List Event × Except RunError (List PurePath)
  | [] => ([], Except.ok [])
  | directory :: rest =>
      let dir_abs := cfg.base_config.repository_root ++ [directory]
      if cfg.skip_build then
        let files := (w.globDebs dir_abs).map fun f => PurePath.mk dir_abs f
        let (ev, r) := collectFolders w cfg rest
        (ev, r.map fun l => files ++ l)
      else
        match build_packages w directory with
        | (ev0, Except.error e) => (ev0, Except.error e)
        | (ev0, Except.ok out) =>
            let files := (get_package_from_stdout out).map fun f => PurePath.mk dir_abs f
            let (ev, r) := collectFolders w cfg rest
            (ev0 ++ ev, r.map fun l => files ++ l)

/-- `build_packages_and_get_paths`. -/
def build_packages_and_get_paths (w : World) (cfg : Configuration) :
    List Event × Except RunError (List PurePath) :=
  collectFolders w cfg cfg.folders

/-- `is_package_installed`: exit status 0 and 1 are answers, anything
above 1 is raised by `check_returncode()`. -/
def is_package_installed (w : World) (machine package : String) :
    Except RunError Bool :=
  let rc := w.query machine package
  if rc > 1 then Except.error (RunError.queryFailed machine package rc)
  else Except.ok (rc == 0)

/-- The per-machine loop body of `update_packages` over the remaining
packages: returns the events issued and the accumulated `to_install`
list.  `cfg.skip_check` short-circuits the query; an installed package is
copied (`scp str(pkg) machine:pkg.name`) and its basename recorded; a
not-installed package is skipped; an unexpected query status aborts. -/
def updateMachinePackages (w : World) (skip_check : Bool) (machine : String) :
    List PurePath → List Event × Except RunError (List String)
  | [] => ([], Except.ok [])
  | pkg :: rest =>
      let name := deriveName pkg.name
      if skip_check then
        let (evs, r) := updateMachinePackages w skip_check machine rest
        (Event.copy machine pkg.toStr (machine ++ ":" ++ pkg.name) :: evs,
         r.map fun l => pkg.name :: l)
      else
        match is_package_installed w machine name with
        | Except.error e => ([Event.check machine name], Except.error e)
        | Except.ok true =>
            let (evs, r) := updateMachinePackages w skip_check machine rest
            (Event.check machine name ::
               Event.copy machine pkg.toStr (machine ++ ":" ++ pkg.name) :: evs,
             r.map fun l => pkg.name :: l)
        | Except.ok false =>
            let (evs, r) := updateMachinePackages w skip_check machine rest
            (Event.check machine name :: evs, r)

/-- `install_packages`: nothing when the list is empty, otherwise one
`ssh machine "dpkg --install <space-joined filenames>"`. -/
def install_packages (machine : String) (pkg_paths : List String) : List Event :=
  if pkg_paths = [] then []
  else [Event.installCmd machine ("dpkg --install " ++ String.intercalate " " pkg_paths)]

/-- One iteration of the machine loop of `update_packages`: process every
package, then hand the collected list to `install_packages`. -/
def updateMachine (w : World) (skip_check : Bool) (machine : String)
    (packages : List PurePath) : List Event × Except RunError Unit :=
  match updateMachinePackages w skip_check machine packages with
  | (ev, Except.error e) => (ev, Except.error e)
  | (ev, Except.ok to_install) =>
      (ev ++ install_packages machine to_install, Except.ok ())

/-- The machine loop of `update_packages`: machines strictly in order, a
failure on one machine propagates and stops the rest. -/
def updateMachinesGo (w : World) (skip_check : Bool) (packages : List PurePath) :
    List String → List Event × Except RunError Unit
  | [] => ([], Except.ok ())
  | machine :: rest =>
      match updateMachine w skip_check machine packages with
      | (ev, Except.error e) => (ev, Except.error e)
      | (ev, Except.ok _) =>
          let (ev2, r2) := updateMachinesGo w skip_check packages rest
          (ev ++ ev2, r2)

/-- `update_packages`. -/
def update_packages (w : World) (cfg : Configuration) (packages : List PurePath) :
    List Event × Except RunError Unit :=
  updateMachinesGo w cfg.skip_check packages cfg.machines

/-- `Configuration.run`: collect the package files, then update the
machines; a collection failure means no update step at all. -/
def Configuration.run (w : World) (cfg : Configuration) :
    List Event × Except RunError Unit :=
  match build_packages_and_get_paths w cfg with
  | (ev, Except.error e) => (ev, Except.error e)
  | (ev, Except.ok pkg_files) =>
      let (ev2, r) := update_packages w cfg pkg_files
      (ev ++ ev2, r)

/-- How a whole run can fail: during configuration resolution or during
execution. -/
inductive ProgError where
  | config (e : ConfigError)
  | run (e : RunError)
deriving DecidableEq

/-- `main`: resolve the configuration, then run it.  A configuration
error terminates the process before any external command. -/
def main' (w : World) (hasGit : List String → Bool) (cwd : List String)
    (args : Args) : List Event × Except ProgError Unit :=
  match Configuration.from_args hasGit cwd args with
  | Except.error e => ([], Except.error (ProgError.config e))
  | Except.ok cfg =>
      let (ev, r) := Configuration.run w cfg
      (ev, r.mapError ProgError.run)

/-- The decision of `update_packages` for one package on one machine:
`cfg.skip_check or is_package_installed(...)` in the non-error case. -/
def shouldInstall (w : World) (skip_check : Bool) (machine : String)
    (pkg : PurePath) : Bool :=
  skip_check || (w.query machine (deriveName pkg.name) == 0)

/-- A concrete world used to evaluate the theorems: package `a` reports
installed (query exit 0), every other package reports not installed
(exit 1); building folder `fbad` fails with captured output `boom`,
every other folder builds and announces `a_1_amd64.deb`. -/
def wEx : World :=
  ⟨fun d => if d = "fbad" then Except.error "boom" else Except.ok "PKG_FILE=a_1_amd64.deb\n",
   fun _ pkg => if pkg = "a" then 0 else 1,
   fun _ => []⟩

/-- Two concrete artifacts under `/r/f`: `a` (installed on every machine
of `wEx`) and `b` (not installed). -/
def pkgsEx : List PurePath :=
  [⟨["r", "f"], "a_1_amd64.deb"⟩, ⟨["r", "f"], "b_1_amd64.deb"⟩]

/-- A `filterMap` whose function is a guarded `some` is a `filter`
followed by a `map`. -/
theorem filterMap_guard {α β : Type} (p : α → Bool) (f : α → β) (l : List α) :
    l.filterMap (fun a => if p a then some (f a) else none) = (l.filter p).map f := by
  induction l with
  | nil => rfl
  | cons a l ih => by_cases h : p a <;> simp [h, ih]

/-- A `flatMap` whose function is a guarded singleton is a `filter`
followed by a `map`. -/
theorem flatMap_guard {α β : Type} (p : α → Bool) (f : α → β) (l : List α) :
    (l.flatMap fun a => if p a then [f a] else []) = (l.filter p).map f := by
  induction l with
  | nil => rfl
  | cons a l ih => by_cases h : p a <;> simp [h, ih]

/-- `filter` distributes over `flatMap`. -/
theorem filter_flatMap {α β : Type} (l : List α) (f : α → List β) (p : β → Bool) :
    (l.flatMap f).filter p = l.flatMap fun a => (f a).filter p := by
  induction l with
  | nil => rfl
  | cons a l ih => simp [List.filter_append, ih]

/-- C3: artifact-filename extraction takes, in input order and without
deduplication, exactly the lines of the captured output that begin with
the literal prefix `PKG_FILE=`, keeping the remainder of each such line;
an output with no such line yields the empty sequence. -/
theorem c3_extraction :
    (∀ s : String,
        get_package_from_stdout s =
          ((splitlines s).filter fun line => strStartsWith line "PKG_FILE=").map
            fun line => strDrop line ("PKG_FILE=".data.length))
    ∧ get_package_from_stdout "foo\nPKG_FILE=a.deb\nbar\nPKG_FILE=b.deb\n" = ["a.deb", "b.deb"]
    ∧ get_package_from_stdout "foo\nbar\n" = []
    ∧ get_package_from_stdout "" = []
    ∧ get_package_from_stdout "PKG_FILE=a.deb\nPKG_FILE=a.deb\n" = ["a.deb", "a.deb"] := by
  refine ⟨fun s => ?_, by decide, by decide, by decide, by decide⟩
  exact filterMap_guard _ _ (splitlines s)

/-- Taking characters up to the first underscore of `l1 ++ '_' :: l2`
yields exactly `l1` when `l1` itself is underscore-free. -/
theorem takeWhile_stop_at_underscore (l1 l2 : List Char) (h : ∀ c ∈ l1, c ≠ '_') :
    (l1 ++ '_' :: l2).takeWhile (fun c => c != '_') = l1 := by
  induction l1 with
  | nil => simp
  | cons c cs ih =>
      have hc : (c != '_') = true := by simpa using h c (by simp)
      simp [List.takeWhile_cons, hc, ih fun x hx => h x (by simp [hx])]

/-- C6: for every artifact filename containing an underscore — written
uniquely as `a ++ "_" ++ b` with `a` underscore-free — the derived
package name is `a`, the substring before the first underscore; for
every filename `s` with no underscore the derived name is `s` itself. -/
theorem c6_name_derivation (a b s : String)
    (ha : ∀ c ∈ a.data, c ≠ '_') (hs : ∀ c ∈ s.data, c ≠ '_') :
    deriveName (a ++ "_" ++ b) = a ∧ deriveName s = s := by
  constructor
  · show String.mk ((a ++ "_" ++ b).data.takeWhile fun c => c != '_') = a
    have hdata : (a ++ "_" ++ b).data = a.data ++ '_' :: b.data := by
      simp [String.data_append]
    rw [hdata, takeWhile_stop_at_underscore a.data b.data ha]
  · have ht : s.data.takeWhile (fun c => c != '_') = s.data := by
      rw [List.takeWhile_eq_self_iff]
      intro c hc
      simpa using hs c hc
    show String.mk (s.data.takeWhile fun c => c != '_') = s
    rw [ht]

/-- Witness for C6 at the spec's example `"mytool_1.2.3_amd64.deb"`
(split as `"mytool" ++ "_" ++ "1.2.3_amd64.deb"`) and the
underscore-free filename `"abc.deb"`. -/
theorem c6_name_derivation_witness :
    deriveName "mytool_1.2.3_amd64.deb" = "mytool" ∧ deriveName "abc.deb" = "abc.deb" :=
  c6_name_derivation "mytool" "1.2.3_amd64.deb" "abc.deb" (by decide) (by decide)

/-- C4: a `--machines` value that is a key of the machine-group table
resolves to the table's host list, each host prefixed, in table order; any
other value resolves to its comma-split, each element prefixed, in
order. -/
theorem c4_machine_resolution (machinesArg pfx : String) (hosts : List String) :
    (lookupMachineSet machinesArg = some hosts →
        resolveMachines machinesArg pfx = hosts.map fun h => pfx ++ h)
    ∧ (lookupMachineSet machinesArg = none →
        resolveMachines machinesArg pfx = (splitOnChar ',' machinesArg).map fun h => pfx ++ h) := by
  constructor <;> intro h <;> simp [resolveMachines, h]

/-- Witness for C4: the configured group `"single"` with prefix `"p-"`,
and the literal list `"h1,h2"` with prefix `"p-"`. -/
theorem c4_machine_resolution_witness :
    resolveMachines "single" "p-" = ["p-bsbt1"]
    ∧ resolveMachines "h1,h2" "p-" = ["p-h1", "p-h2"] := by
  constructor
  · rw [(c4_machine_resolution "single" "p-" ["bsbt1"]).1 (by decide)]
    decide
  · rw [(c4_machine_resolution "h1,h2" "p-" []).2 (by decide)]
    decide

/-- C5: the install-check maps query exit status 0 to installed, exit
status 1 to not installed without raising, and raises on any exit status
greater than 1. -/
theorem c5_install_check (w : World) (machine package : String) :
    (w.query machine package = 0 →
        is_package_installed w machine package = Except.ok true)
    ∧ (w.query machine package = 1 →
        is_package_installed w machine package = Except.ok false)
    ∧ (1 < w.query machine package →
        is_package_installed w machine package =
          Except.error (RunError.queryFailed machine package (w.query machine package))) := by
  refine ⟨fun h => ?_, fun h => ?_, fun h => ?_⟩ <;>
    simp [is_package_installed, h]

/-- Witness for C5 at query exit statuses 0, 1 and 2. -/
theorem c5_install_check_witness :
    is_package_installed ⟨fun _ => Except.ok "", fun _ _ => 0, fun _ => []⟩ "m" "p" = Except.ok true
    ∧ is_package_installed ⟨fun _ => Except.ok "", fun _ _ => 1, fun _ => []⟩ "m" "p" = Except.ok false
    ∧ is_package_installed ⟨fun _ => Except.ok "", fun _ _ => 2, fun _ => []⟩ "m" "p" =
        Except.error (RunError.queryFailed "m" "p" 2) :=
  ⟨(c5_install_check _ "m" "p").1 rfl,
   (c5_install_check _ "m" "p").2.1 rfl,
   (c5_install_check _ "m" "p").2.2 (by decide)⟩

/-- Characterization of the per-machine package loop when no query
reports an unexpected exit status (or the check is skipped): the loop
succeeds, issues one check per package (unless skipped) plus one copy per
selected package, and collects exactly the selected basenames in order. -/
theorem updateMachinePackages_eq (w : World) (skip_check : Bool) (machine : String)
    (packages : List PurePath)
    (h : ∀ pkg ∈ packages, skip_check = true ∨ w.query machine (deriveName pkg.name) ≤ 1) :
    updateMachinePackages w skip_check machine packages =
      (packages.flatMap fun pkg =>
          (if skip_check then [] else [Event.check machine (deriveName pkg.name)]) ++
          (if shouldInstall w skip_check machine pkg then
              [Event.copy machine pkg.toStr (machine ++ ":" ++ pkg.name)]
           else []),
       Except.ok ((packages.filter (shouldInstall w skip_check machine)).map PurePath.name)) := by
  induction packages with
  | nil => rfl
  | cons pkg rest ih =>
      have hrest : ∀ p ∈ rest, skip_check = true ∨ w.query machine (deriveName p.name) ≤ 1 :=
        fun p hp => h p (by simp [hp])
      have heq := ih hrest
      cases hsc : skip_check with
      | true =>
          simp [updateMachinePackages, hsc ▸ heq, shouldInstall, Except.map]
      | false =>
          have hle : w.query machine (deriveName pkg.name) ≤ 1 := by
            rcases h pkg (by simp) with h1 | h1
            · rw [hsc] at h1; cases h1
            · exact h1
          rw [hsc] at heq
          cases hq : w.query machine (deriveName pkg.name) with
          | zero =>
              simp [updateMachinePackages, is_package_installed, hq, heq, shouldInstall, Except.map]
          | succ n =>
              have hn : n = 0 := by omega
              subst hn
              simp [updateMachinePackages, is_package_installed, hq, heq, shouldInstall, Except.map]

/-- Under the same no-unexpected-status hypothesis, one whole machine
iteration (package loop plus batched install) succeeds and its events are
the loop events followed by the install events. -/
theorem updateMachine_spec (w : World) (skip_check : Bool) (machine : String)
    (packages : List PurePath)
    (h : ∀ pkg ∈ packages, skip_check = true ∨ w.query machine (deriveName pkg.name) ≤ 1) :
    updateMachine w skip_check machine packages =
      ((packages.flatMap fun pkg =>
           (if skip_check then [] else [Event.check machine (deriveName pkg.name)]) ++
           (if shouldInstall w skip_check machine pkg then
               [Event.copy machine pkg.toStr (machine ++ ":" ++ pkg.name)]
            else [])) ++
         install_packages machine
           ((packages.filter (shouldInstall w skip_check machine)).map PurePath.name),
       Except.ok ()) := by
  simp [updateMachine, updateMachinePackages_eq w skip_check machine packages h]

/-- The machine loop succeeds whenever no machine's query reports an
unexpected exit status for any package (or the check is skipped). -/
theorem updateMachinesGo_ok (w : World) (skip_check : Bool) (packages : List PurePath)
    (ms : List String)
    (h : ∀ m ∈ ms, ∀ pkg ∈ packages, skip_check = true ∨ w.query m (deriveName pkg.name) ≤ 1) :
    (updateMachinesGo w skip_check packages ms).2 = Except.ok () := by
  induction ms with
  | nil => rfl
  | cons m rest ih =>
      have h1 := updateMachine_spec w skip_check m packages (h m (by simp))
      simp [updateMachinesGo, h1, ih fun m' hm' p hp => h m' (by simp [hm']) p hp]

/-- The copies among the per-package loop events: one per selected
package, in order. -/
theorem flatMapEvents_filter_copy (w : World) (skip_check : Bool) (machine : String)
    (packages : List PurePath) :
    ((packages.flatMap fun pkg =>
         (if skip_check then [] else [Event.check machine (deriveName pkg.name)]) ++
         (if shouldInstall w skip_check machine pkg then
             [Event.copy machine pkg.toStr (machine ++ ":" ++ pkg.name)]
          else [])).filter Event.isCopy) =
      (packages.filter (shouldInstall w skip_check machine)).map
        fun pkg => Event.copy machine pkg.toStr (machine ++ ":" ++ pkg.name) := by
  rw [filter_flatMap,
      ← flatMap_guard (shouldInstall w skip_check machine)
        (fun pkg => Event.copy machine pkg.toStr (machine ++ ":" ++ pkg.name)) packages]
  congr 1
  funext pkg
  by_cases hs : shouldInstall w skip_check machine pkg <;>
    cases skip_check <;>
    simp_all [Event.isCopy, List.filter_append]

/-- The per-package loop events contain no install command. -/
theorem flatMapEvents_filter_install (w : World) (skip_check : Bool) (machine : String)
    (packages : List PurePath) :
    ((packages.flatMap fun pkg =>
         (if skip_check then [] else [Event.check machine (deriveName pkg.name)]) ++
         (if shouldInstall w skip_check machine pkg then
             [Event.copy machine pkg.toStr (machine ++ ":" ++ pkg.name)]
          else [])).filter Event.isInstall) = [] := by
  rw [filter_flatMap]
  have hz : ∀ pkg : PurePath,
      ((if skip_check then [] else [Event.check machine (deriveName pkg.name)]) ++
         (if shouldInstall w skip_check machine pkg then
             [Event.copy machine pkg.toStr (machine ++ ":" ++ pkg.name)]
          else [])).filter Event.isInstall = ([] : List Event) := by
    intro pkg
    by_cases hs : shouldInstall w skip_check machine pkg <;>
      cases skip_check <;>
      simp_all [Event.isInstall, List.filter_append]
  simp [hz]

/-- C1: with skip-install-check set, every artifact is copied to the
machine and batched, with no query; with it unset, an artifact is copied
and batched exactly when the query for its derived name exits 0, an
artifact whose query exits 1 is neither copied nor batched, and no query
exit status of 0 or 1 aborts the remaining artifacts or machines. -/
theorem c1_install_decision (w : World) (skip_check : Bool) (machine : String)
    (packages : List PurePath) (ms : List String)
    (h : ∀ m ∈ machine :: ms, ∀ pkg ∈ packages,
        skip_check = true ∨ w.query m (deriveName pkg.name) ≤ 1) :
    (updateMachinePackages w skip_check machine packages).2 =
        Except.ok ((packages.filter (shouldInstall w skip_check machine)).map PurePath.name)
    ∧ (updateMachinePackages w skip_check machine packages).1.filter Event.isCopy =
        ((packages.filter (shouldInstall w skip_check machine)).map
          fun pkg => Event.copy machine pkg.toStr (machine ++ ":" ++ pkg.name))
    ∧ (skip_check = true → packages.filter (shouldInstall w skip_check machine) = packages)
    ∧ (skip_check = false → ∀ pkg : PurePath,
        shouldInstall w skip_check machine pkg = (w.query machine (deriveName pkg.name) == 0))
    ∧ (updateMachinesGo w skip_check packages (machine :: ms)).2 = Except.ok () := by
  have h1 := updateMachinePackages_eq w skip_check machine packages (h machine (by simp))
  refine ⟨?_, ?_, ?_, ?_, updateMachinesGo_ok w skip_check packages (machine :: ms) h⟩
  · rw [h1]
  · rw [h1]
    exact flatMapEvents_filter_copy w skip_check machine packages
  · intro hsc
    subst hsc
    simp [shouldInstall]
  · intro hsc pkg
    simp [shouldInstall, hsc]

/-- Witness for C1: on machine `h1` of `wEx` with the check enabled, the
installed artifact `a_1_amd64.deb` is copied and batched, the
not-installed artifact `b_1_amd64.deb` is neither, and the machine loop
completes. -/
theorem c1_install_decision_witness :
    (updateMachinePackages wEx false "h1" pkgsEx).2 = Except.ok ["a_1_amd64.deb"]
    ∧ (updateMachinePackages wEx false "h1" pkgsEx).1.filter Event.isCopy =
        [Event.copy "h1" "/r/f/a_1_amd64.deb" "h1:a_1_amd64.deb"]
    ∧ (updateMachinesGo wEx false pkgsEx ["h1"]).2 = Except.ok () := by
  have h := c1_install_decision wEx false "h1" pkgsEx [] (by decide)
  refine ⟨?_, ?_, h.2.2.2.2⟩
  · rw [h.1]
    simp only [Except.ok.injEq]
    decide
  · rw [h.2.1]
    decide

/-- C2: a machine whose final to-install list is empty gets no remote
install command; a machine with a non-empty list gets exactly one, of
the form `dpkg --install` followed by all and only the collected
filenames, space-joined, in collection order. -/
theorem c2_install_batching (w : World) (skip_check : Bool) (machine : String)
    (packages : List PurePath)
    (h : ∀ pkg ∈ packages, skip_check = true ∨ w.query machine (deriveName pkg.name) ≤ 1) :
    ((packages.filter (shouldInstall w skip_check machine)).map PurePath.name = [] →
        (updateMachine w skip_check machine packages).1.filter Event.isInstall = [])
    ∧ ((packages.filter (shouldInstall w skip_check machine)).map PurePath.name ≠ [] →
        (updateMachine w skip_check machine packages).1.filter Event.isInstall =
          [Event.installCmd machine ("dpkg --install " ++ String.intercalate " "
              ((packages.filter (shouldInstall w skip_check machine)).map PurePath.name))]) := by
  have h1 := updateMachine_spec w skip_check machine packages h
  constructor <;> intro hto <;>
    rw [h1] <;>
    simp only [List.filter_append, flatMapEvents_filter_install, List.nil_append] <;>
    simp [install_packages, hto, Event.isInstall]

/-- Witness for C2: machine `h1` of `wEx` gets exactly one install
command naming the single copied artifact; with no artifacts at all the
machine gets no install command. -/
theorem c2_install_batching_witness :
    (updateMachine wEx false "h1" pkgsEx).1.filter Event.isInstall =
      [Event.installCmd "h1" "dpkg --install a_1_amd64.deb"]
    ∧ (updateMachine wEx false "h0" []).1.filter Event.isInstall = [] := by
  constructor
  · have h := (c2_install_batching wEx false "h1" pkgsEx (by decide)).2 (by decide)
    rw [h]
    decide
  · exact (c2_install_batching wEx false "h0" [] (by decide)).1 (by decide)

/-- C10: per machine, copying and installing stay coupled: the machine
iteration succeeds, the copies are exactly one per selected artifact
with the remote destination filename equal to the artifact's basename,
and the batched install receives exactly those basenames in copy
order. -/
theorem c10_copy_install_coupling (w : World) (skip_check : Bool) (machine : String)
    (packages : List PurePath)
    (h : ∀ pkg ∈ packages, skip_check = true ∨ w.query machine (deriveName pkg.name) ≤ 1) :
    (updateMachine w skip_check machine packages).2 = Except.ok ()
    ∧ (updateMachine w skip_check machine packages).1.filter Event.isCopy =
        ((packages.filter (shouldInstall w skip_check machine)).map
          fun pkg => Event.copy machine pkg.toStr (machine ++ ":" ++ pkg.name))
    ∧ (updateMachine w skip_check machine packages).1.filter Event.isInstall =
        install_packages machine
          ((packages.filter (shouldInstall w skip_check machine)).map PurePath.name) := by
  have h1 := updateMachine_spec w skip_check machine packages h
  refine ⟨by rw [h1], ?_, ?_⟩
  · rw [h1]
    simp only [List.filter_append, flatMapEvents_filter_copy]
    have : (install_packages machine
        ((packages.filter (shouldInstall w skip_check machine)).map PurePath.name)).filter
          Event.isCopy = [] := by
      simp [install_packages, apply_ite (List.filter Event.isCopy), Event.isCopy]
    rw [this, List.append_nil]
  · rw [h1]
    simp only [List.filter_append, flatMapEvents_filter_install, List.nil_append]
    simp [install_packages, apply_ite (List.filter Event.isInstall), Event.isInstall]

/-- Witness for C10 on machine `h1` of `wEx`: the one copy's destination
filename is the artifact basename and the install command names exactly
that basename. -/
theorem c10_copy_install_coupling_witness :
    (updateMachine wEx false "h1" pkgsEx).2 = Except.ok ()
    ∧ (updateMachine wEx false "h1" pkgsEx).1.filter Event.isCopy =
        [Event.copy "h1" "/r/f/a_1_amd64.deb" "h1:a_1_amd64.deb"]
    ∧ (updateMachine wEx false "h1" pkgsEx).1.filter Event.isInstall =
        [Event.installCmd "h1" "dpkg --install a_1_amd64.deb"] := by
  have h := c10_copy_install_coupling wEx false "h1" pkgsEx (by decide)
  refine ⟨h.1, ?_, ?_⟩
  · rw [h.2.1]
    decide
  · rw [h.2.2]
    decide

/-- In build mode the folder loop issues one container build per folder
up to and including the first failing one, then stops with that failure
(carrying the captured output) and returns no artifact list. -/
theorem collectFolders_fail (w : World) (cfg : Configuration)
    (hsb : cfg.skip_build = false) (pre post : List String) (bad out : String)
    (hpre : ∀ d ∈ pre, ∃ s, w.buildOut d = Except.ok s)
    (hbad : w.buildOut bad = Except.error out) :
    collectFolders w cfg (pre ++ bad :: post) =
      (pre.map Event.build ++ [Event.build bad],
       Except.error (RunError.buildFailed bad out)) := by
  induction pre with
  | nil => simp [collectFolders, build_packages, hsb, hbad]
  | cons d rest ih =>
      obtain ⟨s, hs⟩ := hpre d (by simp)
      have ih' := ih fun d' hd' => hpre d' (by simp [hd'])
      simp [collectFolders, build_packages, hsb, hs, ih', Except.map]

/-- C9: a container build that exits non-zero propagates as the failure
of the whole run, carrying the captured combined output: the folders
after the failing one are never built, no artifact list is returned, and
no check, copy or install command is ever issued on any machine. -/
theorem c9_build_failure_aborts (w : World) (cfg : Configuration)
    (pre post : List String) (bad out : String)
    (hsb : cfg.skip_build = false)
    (hf : cfg.folders = pre ++ bad :: post)
    (hpre : ∀ d ∈ pre, ∃ s, w.buildOut d = Except.ok s)
    (hbad : w.buildOut bad = Except.error out) :
    Configuration.run w cfg =
      (pre.map Event.build ++ [Event.build bad],
       Except.error (RunError.buildFailed bad out)) := by
  have h1 := collectFolders_fail w cfg hsb pre post bad out hpre hbad
  simp [Configuration.run, build_packages_and_get_paths, hf, h1]

/-- Witness for C9: of the folders `f1`, `fbad`, `f2` of `wEx`, `f1`
builds, `fbad` fails with output `boom`, `f2` is never built, and the
machine `h1` is never updated. -/
theorem c9_build_failure_aborts_witness :
    Configuration.run wEx ⟨⟨["r"], "img"⟩, ["h1"], none, ["f1", "fbad", "f2"], false, false⟩ =
      ([Event.build "f1", Event.build "fbad"],
       Except.error (RunError.buildFailed "fbad" "boom")) := by
  have h := c9_build_failure_aborts wEx
      ⟨⟨["r"], "img"⟩, ["h1"], none, ["f1", "fbad", "f2"], false, false⟩
      ["f1"] ["f2"] "fbad" "boom" rfl rfl
      (fun d hd => ⟨"PKG_FILE=a_1_amd64.deb\n", by
        simp only [List.mem_singleton] at hd
        subst hd
        rfl⟩)
      rfl
  simpa using h

/-- C8: when, after argument parsing and environment defaulting, the
machines value or the container-image value is still `none`, the program
stops with a configuration failure (`sys.exit(1)`, or the repository-root
exception raised even earlier) and issues no build, check, copy or
install command. -/
theorem c8_missing_config_aborts (w : World) (hasGit : List String → Bool)
    (cwd : List String) (args : Args)
    (h : args.machines = none ∨ args.docker_image = none) :
    (main' w hasGit cwd args).1 = []
    ∧ ∃ c, (main' w hasGit cwd args).2 = Except.error (ProgError.config c)
        ∧ (c = ConfigError.exit 1 ∨ ∃ msg, c = ConfigError.raised msg) := by
  have hcfg : ∃ c, Configuration.from_args hasGit cwd args = Except.error c
      ∧ (c = ConfigError.exit 1 ∨ ∃ msg, c = ConfigError.raised msg) := by
    cases hrr : args.repository_root with
    | some r =>
        cases hdi : args.docker_image with
        | none =>
            exact ⟨ConfigError.exit 1,
              by simp [Configuration.from_args, BaseConfiguration.from_args, hrr, hdi],
              Or.inl rfl⟩
        | some img =>
            have hm : args.machines = none := by
              rcases h with h | h
              · exact h
              · simp [h] at hdi
            exact ⟨ConfigError.exit 1,
              by simp [Configuration.from_args, BaseConfiguration.from_args, hrr, hdi, hm],
              Or.inl rfl⟩
    | none =>
        cases hsr : search_repository_root hasGit cwd with
        | error msg =>
            exact ⟨ConfigError.raised msg,
              by simp [Configuration.from_args, BaseConfiguration.from_args, hrr, hsr,
                       Except.mapError],
              Or.inr ⟨msg, rfl⟩⟩
        | ok root =>
            cases hdi : args.docker_image with
            | none =>
                exact ⟨ConfigError.exit 1,
                  by simp [Configuration.from_args, BaseConfiguration.from_args, hrr, hsr,
                           Except.mapError, hdi],
                  Or.inl rfl⟩
            | some img =>
                have hm : args.machines = none := by
                  rcases h with h | h
                  · exact h
                  · simp [h] at hdi
                exact ⟨ConfigError.exit 1,
                  by simp [Configuration.from_args, BaseConfiguration.from_args, hrr, hsr,
                           Except.mapError, hdi, hm],
                  Or.inl rfl⟩
  obtain ⟨c, hc, hshape⟩ := hcfg
  exact ⟨by simp [main', hc], c, by simp [main', hc], hshape⟩

/-- Witness for C8: arguments with a docker image but no machines value
produce no event and a configuration error. -/
theorem c8_missing_config_aborts_witness :
    (main' wEx (fun _ => true) [] ⟨["f1"], none, none, some "img", "", none, false, false⟩).1 = []
    ∧ ∃ c, (main' wEx (fun _ => true) []
          ⟨["f1"], none, none, some "img", "", none, false, false⟩).2 =
        Except.error (ProgError.config c)
        ∧ (c = ConfigError.exit 1 ∨ ∃ msg, c = ConfigError.raised msg) :=
  c8_missing_config_aborts wEx (fun _ => true) [] _ (Or.inl rfl)

/-- The upward search succeeds at the nearest ancestor with `.git`: if
the prefix of length `i` has `.git` and every longer prefix (up to the
whole path) does not, the search returns that prefix. -/
theorem search_repository_root_found (hasGit : List String → Bool) :
    ∀ (p : List String) (i : Nat),
      hasGit (p.take i) = true →
      (∀ j < p.length + 1, i < j → hasGit (p.take j) = false) →
      search_repository_root hasGit p = Except.ok (p.take i) := by
  intro p
  induction p using List.reverseRecOn with
  | nil =>
      intro i hi _
      rw [search_repository_root]
      simp only [List.take_nil] at hi ⊢
      simp [hi]
  | append_singleton l a ih =>
      intro i hi hj
      by_cases hlen : (l ++ [a]).length ≤ i
      · have htake : (l ++ [a]).take i = l ++ [a] := List.take_of_length_le hlen
        rw [htake] at hi ⊢
        rw [search_repository_root]
        simp [hi]
      · have hil : i ≤ l.length := by
          simp only [List.length_append, List.length_singleton] at hlen
          omega
        have hfull : hasGit (l ++ [a]) = false := by
          have hx := hj (l ++ [a]).length (by omega) (by omega)
          rwa [List.take_length] at hx
        rw [search_repository_root]
        rw [List.take_append_of_le_length hil] at hi ⊢
        have hj' : ∀ j < l.length + 1, i < j → hasGit (l.take j) = false := by
          intro j hjl hij
          have hx := hj j (by simp only [List.length_append, List.length_singleton]; omega) hij
          rwa [List.take_append_of_le_length (by omega)] at hx
        simp [hfull, List.dropLast_concat, ih i hi hj']

/-- The upward search fails with the root-not-found error when no prefix
of the start (up to and including the filesystem root `[]`) has
`.git`. -/
theorem search_repository_root_not_found (hasGit : List String → Bool) :
    ∀ p : List String, (∀ j < p.length + 1, hasGit (p.take j) = false) →
      search_repository_root hasGit p = Except.error "Could not find repository root!" := by
  intro p
  induction p using List.reverseRecOn with
  | nil =>
      intro hj
      have h0 : hasGit [] = false := by simpa using hj 0 (by omega)
      rw [search_repository_root]
      simp [h0]
  | append_singleton l a ih =>
      intro hj
      have hfull : hasGit (l ++ [a]) = false := by
        have hx := hj (l ++ [a]).length (by omega)
        rwa [List.take_length] at hx
      have hrec := ih fun j hjl => by
        have hx := hj j (by simp only [List.length_append, List.length_singleton]; omega)
        rwa [List.take_append_of_le_length (by omega)] at hx
      rw [search_repository_root]
      simp [hfull, List.dropLast_concat, hrec]

/-- C7: started from any directory, the repository-root search returns
the nearest ancestor (the start included) that contains a `.git` entry,
and raises the fatal root-not-found error when no directory up to and
including the filesystem root contains one. -/
theorem c7_repository_root_search (hasGit : List String → Bool) (p : List String) (i : Nat) :
    ((hasGit (p.take i) = true ∧ ∀ j < p.length + 1, i < j → hasGit (p.take j) = false) →
        search_repository_root hasGit p = Except.ok (p.take i))
    ∧ ((∀ j < p.length + 1, hasGit (p.take j) = false) →
        search_repository_root hasGit p = Except.error "Could not find repository root!") :=
  ⟨fun hp => search_repository_root_found hasGit p i hp.1 hp.2,
   fun hp => search_repository_root_not_found hasGit p hp⟩

/-- Witness for C7: in the tree `/a/b/c` where only `/a` contains
`.git`, searching from `/a/b/c` returns `/a`; with `.git` nowhere,
searching from `/x` raises the root-not-found error. -/
theorem c7_repository_root_search_witness :
    search_repository_root (fun d => d == ["a"]) ["a", "b", "c"] = Except.ok ["a"]
    ∧ search_repository_root (fun _ => false) ["x"] =
        Except.error "Could not find repository root!" :=
  ⟨(c7_repository_root_search (fun d => d == ["a"]) ["a", "b", "c"] 1).1
      ⟨by decide, by decide⟩,
   (c7_repository_root_search (fun _ => false) ["x"] 0).2 (by decide)⟩
